import Mathlib

/-!
Verification of the `rust-rtree` spatial index (an R-tree over axis-aligned
bounding boxes with ray queries).

The development shallowly embeds the Rust sources:

* `src/vec3.rs`, `src/bbox.rs` — 3-component vectors and the bounding-box
  algebra.  Floating-point scalars are modelled as exact rationals (`ℚ`);
  all claims about this fragment concern finite, non-NaN values, where
  IEEE-754 `f64` arithmetic without overflow agrees with `ℚ` up to rounding.
* `src/ray.rs`, `BBox::intersects` — the slab test manipulates reciprocal
  direction components, which are infinite when a direction component is
  zero, and products that can be NaN.  These computations are embedded over
  an explicit extended-float scalar type `F` (finite rational, ±infinity,
  NaN) whose operations follow IEEE-754 semantics.
* `src/lib.rs` — the R-tree node structure, insertion, quadratic split
  (`util::pick_seeds`, `util::quad_split`), choose-subtree
  (`util::best_fit`) and the ray-query iterator.  Rust panics
  (`unimplemented!`, `expect`, `panic!`, `unreachable!`) are modelled with
  `Option`/`Except`: a `none`/`.error` result is a panic.
-/

namespace RT

/-- `Vec3` from `src/vec3.rs`, components modelled as exact rationals. -/
structure Vec3 where
  x : ℚ
  y : ℚ
  z : ℚ
deriving DecidableEq, Repr

/-- Component-wise subtraction (`impl Sub for Vec3`). -/
def Vec3.sub (a b : Vec3) : Vec3 :=
  ⟨a.x - b.x, a.y - b.y, a.z - b.z⟩

/-- `Vec3 - f64` (`impl Sub<f64> for Vec3`): subtract a scalar from every
component. -/
def Vec3.subScalar (a : Vec3) (s : ℚ) : Vec3 :=
  ⟨a.x - s, a.y - s, a.z - s⟩

/-- `Vec3 + f64` (`impl Add<f64> for Vec3`): add a scalar to every
component. -/
def Vec3.addScalar (a : Vec3) (s : ℚ) : Vec3 :=
  ⟨a.x + s, a.y + s, a.z + s⟩

/-- `BBox` from `src/bbox.rs`: an axis-aligned box given by two corner
points. -/
structure BBox where
  min : Vec3
  max : Vec3
deriving DecidableEq, Repr

/-- `bbox.rs::union_bbox`: component-wise min of minima and max of maxima.
For finite (non-NaN) scalars Rust's `f64::min`/`f64::max` agree with the
rational `min`/`max` used here. -/
def union_bbox (b1 b2 : BBox) : BBox :=
  { min := ⟨min b1.min.x b2.min.x, min b1.min.y b2.min.y, min b1.min.z b2.min.z⟩
    max := ⟨max b1.max.x b2.max.x, max b1.max.y b2.max.y, max b1.max.z b2.max.z⟩ }

/-- `BBox::union` delegates to `union_bbox`. -/
def BBox.union (b other : BBox) : BBox :=
  union_bbox b other

/-- `BBox::contains`: `other` is inclusively nested inside `self` on all
three axes. -/
def BBox.contains (b other : BBox) : Bool :=
  other.min.x ≥ b.min.x &&
  other.min.y ≥ b.min.y &&
  other.min.z ≥ b.min.z &&
  other.max.x ≤ b.max.x &&
  other.max.y ≤ b.max.y &&
  other.max.z ≤ b.max.z

/-- `BBox::overlaps`: the projections on all three axes overlap
(inclusively). -/
def BBox.overlaps (b other : BBox) : Bool :=
  (b.max.x ≥ other.min.x && b.min.x ≤ other.max.x) &&
  (b.max.y ≥ other.min.y && b.min.y ≤ other.max.y) &&
  (b.max.z ≥ other.min.z && b.min.z ≤ other.max.z)

/-- `BBox::inside`: inclusive point containment. -/
def BBox.inside (b : BBox) (p : Vec3) : Bool :=
  p.x ≥ b.min.x && p.x ≤ b.max.x &&
  p.y ≥ b.min.y && p.y ≤ b.max.y &&
  p.z ≥ b.min.z && p.z ≤ b.max.z

/-- `BBox::volume`: product of the three (possibly negative) side
lengths. -/
def BBox.volume (b : BBox) : ℚ :=
  (b.max.x - b.min.x) * (b.max.y - b.min.y) * (b.max.z - b.min.z)

/-- `BBox::max_extent`: index of the widest axis (0 = x, 1 = y, 2 = z),
with the exact strict comparisons of the source (`diag.x > diag.y &&
diag.x > diag.z`, then `diag.y > diag.z`); the source's local
`diag = max - min` is inlined component-wise here. -/
def BBox.max_extent (b : BBox) : Nat :=
  if b.max.x - b.min.x > b.max.y - b.min.y ∧ b.max.x - b.min.x > b.max.z - b.min.z then 0
  else if b.max.y - b.min.y > b.max.z - b.min.z then 1
  else 2

/-- The extent (side length) of box `b` along axis `i` (0 = x, 1 = y,
anything else = z), i.e. the component of `max - min` the source reads on
that axis. -/
def BBox.extent (b : BBox) (i : Nat) : ℚ :=
  match i with
  | 0 => b.max.x - b.min.x
  | 1 => b.max.y - b.min.y
  | _ => b.max.z - b.min.z

/-! ### Basic bounding-box lemmas -/

theorem contains_eq (b other : BBox) :
    (b.contains other = true) ↔
      (b.min.x ≤ other.min.x ∧ b.min.y ≤ other.min.y ∧ b.min.z ≤ other.min.z ∧
       other.max.x ≤ b.max.x ∧ other.max.y ≤ b.max.y ∧ other.max.z ≤ b.max.z) := by
  simp [BBox.contains, ge_iff_le, and_assoc]

theorem union_contains_left (a b : BBox) : (union_bbox a b).contains a = true := by
  simp [contains_eq, union_bbox, min_le_left, le_max_left]

theorem union_contains_right (a b : BBox) : (union_bbox a b).contains b = true := by
  simp [contains_eq, union_bbox, min_le_right, le_max_right]

theorem contains_rfl (a : BBox) : a.contains a = true := by
  simp [contains_eq]

theorem contains_trans {a b c : BBox} (h1 : a.contains b = true)
    (h2 : b.contains c = true) : a.contains c = true := by
  rw [contains_eq] at *
  obtain ⟨h1a, h1b, h1c, h1d, h1e, h1f⟩ := h1
  obtain ⟨h2a, h2b, h2c, h2d, h2e, h2f⟩ := h2
  exact ⟨le_trans h1a h2a, le_trans h1b h2b, le_trans h1c h2c,
         le_trans h2d h1d, le_trans h2e h1e, le_trans h2f h1f⟩

theorem contains_antisymm {a b : BBox} (h1 : a.contains b = true)
    (h2 : b.contains a = true) : a = b := by
  rw [contains_eq] at *
  obtain ⟨h1a, h1b, h1c, h1d, h1e, h1f⟩ := h1
  obtain ⟨h2a, h2b, h2c, h2d, h2e, h2f⟩ := h2
  obtain ⟨⟨ax, ay, az⟩, ⟨bx, biy, bz⟩⟩ := a
  obtain ⟨⟨cx, cy, cz⟩, ⟨dx, dy, dz⟩⟩ := b
  simp_all only [BBox.mk.injEq, Vec3.mk.injEq]
  constructor
  · exact ⟨le_antisymm h1a h2a, le_antisymm h1b h2b, le_antisymm h1c h2c⟩
  · exact ⟨le_antisymm h2d h1d, le_antisymm h2e h1e, le_antisymm h2f h1f⟩

theorem union_lub {c a b : BBox} (ha : c.contains a = true)
    (hb : c.contains b = true) : c.contains (union_bbox a b) = true := by
  rw [contains_eq] at *
  obtain ⟨h1a, h1b, h1c, h1d, h1e, h1f⟩ := ha
  obtain ⟨h2a, h2b, h2c, h2d, h2e, h2f⟩ := hb
  exact ⟨le_min h1a h2a, le_min h1b h2b, le_min h1c h2c,
         max_le h1d h2d, max_le h1e h2e, max_le h1f h2f⟩

theorem union_self (a : BBox) : union_bbox a a = a := by
  simp [union_bbox]

theorem union_absorb_right {a b : BBox} (h : b.contains a = true) :
    union_bbox a b = b := by
  rw [contains_eq] at h
  obtain ⟨h1, h2, h3, h4, h5, h6⟩ := h
  simp [union_bbox, min_eq_right, max_eq_left, h1, h2, h3, h4, h5, h6]

theorem union_comm (a b : BBox) : union_bbox a b = union_bbox b a := by
  simp [union_bbox, min_comm, max_comm]

theorem union_absorb_left {a b : BBox} (h : a.contains b = true) :
    union_bbox a b = a := by
  rw [union_comm]
  exact union_absorb_right h

theorem union_assoc (a b c : BBox) :
    union_bbox (union_bbox a b) c = union_bbox a (union_bbox b c) := by
  simp [union_bbox, min_assoc, max_assoc]

theorem union_rot (a b c : BBox) :
    union_bbox (union_bbox a b) c = union_bbox (union_bbox a c) b := by
  rw [union_assoc, union_assoc, union_comm b c]

/-! ### Claim C10 -/

/-- **C10.** For every pair of boxes `a` and `b` (components modelled as
exact rationals, hence non-NaN), `union(a, b)` contains `a` and contains
`b` in the inclusive `BBox::contains` sense — including degenerate boxes
whose `min` exceeds their `max` on some axis, since nothing here assumes
`min ≤ max`. -/
theorem C10_union_contains_both (a b : BBox) :
    (union_bbox a b).contains a = true ∧ (union_bbox a b).contains b = true :=
  ⟨union_contains_left a b, union_contains_right a b⟩

/-! ### Claim C9

`BBox::max_extent` resolves a y–z tie to z (the `else` branch), and an
x-tie with the best of the others away from x (the strict `>` fails), so
the claim's tie-breaking direction is wrong on both counts.
-/

/-- **C9 counterexample.** The claim says a tie of the x extent with both
other extents resolves to x (axis 0) and a y–z tie resolves to y (axis 1).
On the unit cube all three extents tie, yet the code returns 2, and on a
box with extents (0, 5, 5) the y–z tie also returns 2. -/
theorem C9_counterexample :
    BBox.max_extent ⟨⟨0, 0, 0⟩, ⟨1, 1, 1⟩⟩ = 2 ∧
    BBox.max_extent ⟨⟨0, 0, 0⟩, ⟨0, 5, 5⟩⟩ = 2 := by
  constructor <;> norm_num [BBox.max_extent]

/-- **C9 (amended).** `BBox::max_extent` returns the axis (x = 0, y = 1,
z = 2) along which `max - min` is largest, where a tie between the y and z
extents resolves to z, and a tie of the x extent with the maximum of the
other extents resolves away from x: x is returned exactly when its extent
strictly exceeds both others, else y exactly when its extent strictly
exceeds z's, else z. -/
theorem C9_max_extent_amended (b : BBox) :
    b.extent b.max_extent = max (b.extent 0) (max (b.extent 1) (b.extent 2)) ∧
    (b.max_extent = 0 ↔ (b.extent 0 > b.extent 1 ∧ b.extent 0 > b.extent 2)) ∧
    (b.max_extent = 1 ↔ (¬(b.extent 0 > b.extent 1 ∧ b.extent 0 > b.extent 2) ∧
        b.extent 1 > b.extent 2)) ∧
    (b.max_extent = 2 ↔ (¬(b.extent 0 > b.extent 1 ∧ b.extent 0 > b.extent 2) ∧
        ¬(b.extent 1 > b.extent 2))) := by
  by_cases h1 : b.max.x - b.min.x > b.max.y - b.min.y ∧ b.max.x - b.min.x > b.max.z - b.min.z
  · simp only [BBox.max_extent, BBox.extent, if_pos h1]
    refine ⟨?_, by simp [h1], by simp [h1], by simp [h1]⟩
    exact (max_eq_left (max_le h1.1.le h1.2.le)).symm
  · by_cases h2 : b.max.y - b.min.y > b.max.z - b.min.z
    · simp only [BBox.max_extent, BBox.extent, if_neg h1, if_pos h2]
      refine ⟨?_, by simp [h1], by simp [h1, h2], by simp [h2]⟩
      rw [max_eq_left h2.le]
      rcases not_and_or.mp h1 with h3 | h3
      · exact (max_eq_right (not_lt.mp h3)).symm
      · exact (max_eq_right ((not_lt.mp h3).trans h2.le)).symm
    · simp only [BBox.max_extent, BBox.extent, if_neg h1, if_neg h2]
      refine ⟨?_, by simp [h1], by simp [h2], by simp [h1, h2]⟩
      rw [max_eq_right (not_lt.mp h2)]
      rcases not_and_or.mp h1 with h3 | h3
      · exact (max_eq_right ((not_lt.mp h3).trans (not_lt.mp h2))).symm
      · exact (max_eq_right (not_lt.mp h3)).symm

/-! ### The `util` module of `src/lib.rs` over exact rationals

`f64::MAX` is the largest finite double; comparisons against it are kept
literal.  Rust panics are modelled by an `Option`/`none` result.  The NaN
panics of `best_fit` cannot fire in this exact-rational fragment (no NaN
exists); they are modelled separately over the extended scalar type `F`.
-/

/-- The exact value of `f64::MAX`. -/
def f64MAX : ℚ := 2 ^ 1024 - 2 ^ 971

namespace util

/-- The loop of `util::pick_seeds`, with the two mutable locals `min_d`
(initially `f64::MAX`) and `best_box` (initially `None`) made explicit.
The candidate pair is taken when its waste `difference` is strictly below
the current `min_d` — the source *minimises* the waste. -/
def pick_seeds_go : List (BBox × BBox) → ℚ → Option (BBox × BBox) → Option (BBox × BBox)
  | [], _, best_box => best_box
  | (e1, e2) :: rest, min_d, best_box =>
    let difference := ((e1.union e2).volume - e1.volume) - e2.volume
    if difference < min_d then
      pick_seeds_go rest difference (some (e1, e2))
    else
      pick_seeds_go rest min_d best_box

/-- `util::pick_seeds`: fold the candidate pairs starting from
`min_d = f64::MAX`, `best_box = None`. -/
def pick_seeds (children : List (BBox × BBox)) : Option (BBox × BBox) :=
  pick_seeds_go children f64MAX none

/-- `util::expansion`: volume growth of `target` when `adding` is unioned
into it. -/
def expansion (target adding : BBox) : ℚ :=
  (target.union adding).volume - target.volume

/-- The assignment loop of `util::quad_split` over the remaining `items`,
with the running group boxes and group contents explicit.  The source's
`Ordering` matches (`partial_cmp` on the two expansions — total over
exact rationals, so the `expect` panic cannot fire — then `Ord::cmp` on
the group sizes) are rendered as the equivalent three-way if-chains:
`Less`/`Equal` on the expansion comparison favours the left group unless
the left group is strictly larger (`Ordering::Greater` on the length
comparison). -/
def quad_split_go {T : Type} (mbr : T → BBox) :
    List T → BBox → List T → BBox → List T → BBox × List T × BBox × List T
  | [], lbox, lefts, rbox, rights => (lbox, lefts, rbox, rights)
  | item :: rest, lbox, lefts, rbox, rights =>
    let ibox := mbr item
    if expansion lbox ibox < expansion rbox ibox then
      quad_split_go mbr rest ((mbr item).union lbox) (lefts ++ [item]) rbox rights
    else if expansion rbox ibox < expansion lbox ibox then
      quad_split_go mbr rest lbox lefts ((mbr item).union rbox) (rights ++ [item])
    else if lefts.length < rights.length then
      quad_split_go mbr rest ((mbr item).union lbox) (lefts ++ [item]) rbox rights
    else if rights.length < lefts.length then
      quad_split_go mbr rest lbox lefts ((mbr item).union rbox) (rights ++ [item])
    else
      quad_split_go mbr rest ((mbr item).union lbox) (lefts ++ [item]) rbox rights

/-- `util::quad_split`.  The seeds are obtained from `pick_seeds` applied
to `zip(items.map(mbr), items.map(mbr))` — each entry paired with
*itself* — and the `.expect("Unsufficient nodes")` panic is a `none`
result.  Every item (seeds included, which are never removed) is then
assigned to a group by the expansion comparison. -/
def quad_split {T : Type} (mbr : T → BBox) (items : List T) :
    Option (BBox × List T × BBox × List T) :=
  match pick_seeds ((items.map mbr).zip (items.map mbr)) with
  | none => none
  | some (lbox, rbox) => some (quad_split_go mbr items lbox [] rbox [])

/-- Containment phase of `util::best_fit`: find the smallest-volume child
whose box contains the target (strict `<` against the running minimum, so
the first smallest wins).  Returns the final `(min_volume, best_idx)`.
(The NaN-volume panic cannot fire over `ℚ`; see `best_fitF`.) -/
def best_fit_phase1 {T : Type} (mbr : T → BBox) (target : BBox) :
    List T → ℚ → Option Nat → Nat → ℚ × Option Nat
  | [], min_volume, best_idx, _ => (min_volume, best_idx)
  | child :: rest, min_volume, best_idx, idx =>
    let bbox := mbr child
    let volume := bbox.volume
    if bbox.contains target ∧ volume < min_volume then
      best_fit_phase1 mbr target rest volume (some idx) (idx + 1)
    else
      best_fit_phase1 mbr target rest min_volume best_idx (idx + 1)

/-- Least-resulting-volume phase of `util::best_fit`: the volume compared
is that of `child.mbr().union(&target)` — the resulting union volume, not
the growth.  `min_volume` is carried over from phase 1 un-reset. -/
def best_fit_phase2 {T : Type} (mbr : T → BBox) (target : BBox) :
    List T → ℚ → Option Nat → Nat → Option Nat
  | [], _, best_idx, _ => best_idx
  | child :: rest, min_volume, best_idx, idx =>
    let volume := ((mbr child).union target).volume
    if volume < min_volume then
      best_fit_phase2 mbr target rest volume (some idx) (idx + 1)
    else
      best_fit_phase2 mbr target rest min_volume best_idx (idx + 1)

/-- `util::best_fit`.  Result `none` models the trailing `unreachable!`
panic; `some none` is the source's normal `None` return for an empty
slice; `some (some idx)` is `Some(idx)`. -/
def best_fit {T : Type} (mbr : T → BBox) (target : BBox) (children : List T) :
    Option (Option Nat) :=
  if children.length = 0 then
    some none
  else
    match best_fit_phase1 mbr target children f64MAX none 0 with
    | (_, some idx) => some (some idx)
    | (min_volume, none) =>
      match best_fit_phase2 mbr target children min_volume none 0 with
      | some idx => some (some idx)
      | none => none

end util

/-! ### Claim C1

`util::quad_split` feeds `pick_seeds` with `zip` of the entry boxes with
themselves, so only the degenerate pairs `(i, i)` are ever examined, and
`pick_seeds` keeps the pair whose waste is strictly *below* the running
minimum.  The claim's all-distinct-pairs waste maximisation is what the
spec prescribes; the code does neither part of it.
-/

/-- Modelled from the spec: every distinct unordered pair in
index-ascending enumeration order. -/
def distinctPairs : List BBox → List (BBox × BBox)
  | [] => []
  | b :: rest => (rest.map fun c => (b, c)) ++ distinctPairs rest

/-- Modelled from the spec: `waste(i,j) = volume(union(box_i, box_j)) -
volume(box_i) - volume(box_j)`. -/
def waste (p : BBox × BBox) : ℚ :=
  ((p.1.union p.2).volume - p.1.volume) - p.2.volume

/-- Modelled from the spec: PickSeeds as the claim states it — examine
every distinct unordered pair and return the pair maximising the waste,
first such pair winning ties. -/
def pick_seedsClaim (boxes : List BBox) : Option (BBox × BBox) :=
  (distinctPairs boxes).foldl
    (fun best p =>
      match best with
      | none => some p
      | some q => if waste q < waste p then some p else some q)
    none

/-- The failing input for C1: two disjoint boxes of volume 1 and 8. -/
def c1b1 : BBox := ⟨⟨0, 0, 0⟩, ⟨1, 1, 1⟩⟩

/-- Second box of the C1 failing input. -/
def c1b2 : BBox := ⟨⟨10, 10, 10⟩, ⟨12, 12, 12⟩⟩

/-- **C1 (code bug).**  On the two-entry input `[b1, b2]`, the seed
selection used by the quadratic split — `pick_seeds` over the self-zipped
boxes, exactly as `quad_split` invokes it — returns the degenerate pair
`(b2, b2)` (the same entry twice, the pair of *minimal* waste `-volume`),
whereas the claim's all-distinct-pairs waste maximisation returns
`(b1, b2)`.  The code thus examines only same-index pairs and minimises
instead of maximises. -/
theorem C1_pick_seeds_code_bug :
    util.pick_seeds (([c1b1, c1b2].map id).zip ([c1b1, c1b2].map id)) = some (c1b2, c1b2) ∧
    pick_seedsClaim [c1b1, c1b2] = some (c1b1, c1b2) ∧
    c1b2 ≠ c1b1 := by
  refine ⟨?_, ?_, by decide⟩
  · norm_num [util.pick_seeds, util.pick_seeds_go, BBox.union, union_bbox, BBox.volume,
      c1b1, c1b2, f64MAX]
  · norm_num [pick_seedsClaim, distinctPairs, waste, BBox.union, union_bbox, BBox.volume,
      c1b1, c1b2]

/-! ### Claim C4

Phase 2 of `util::best_fit` minimises the *resulting union volume*
`volume(union(child, target))`, not the volume growth
`volume(union(child, target)) - volume(child)` that both the claim and the
source's own comment ("search for the node which would expand the least")
describe.  The two disagree on the input below.
-/

/-- C4 failing input: the target box. -/
def c4target : BBox := ⟨⟨0, 0, 100⟩, ⟨100, 100, 101⟩⟩

/-- C4 failing input: a large child that barely grows (growth 10000). -/
def c4childA : BBox := ⟨⟨0, 0, 0⟩, ⟨100, 100, 100⟩⟩

/-- C4 failing input: a tiny child that grows a lot (growth 29999). -/
def c4childB : BBox := ⟨⟨0, 0, 102⟩, ⟨1, 1, 103⟩⟩

/-- **C4 (code bug).**  Neither child contains the target, so the
fallback loop runs: the code returns index 1 (union volume 30000 beats
1010000), although child 0's volume would grow least (10000 < 29999) —
the outcome the claim and the code's own comment require. -/
theorem C4_best_fit_code_bug :
    util.best_fit id c4target [c4childA, c4childB] = some (some 1) ∧
    (c4childA.union c4target).volume - c4childA.volume <
      (c4childB.union c4target).volume - c4childB.volume := by
  constructor
  · norm_num [util.best_fit, util.best_fit_phase1, util.best_fit_phase2,
      BBox.union, union_bbox, BBox.volume, BBox.contains,
      c4target, c4childA, c4childB, f64MAX]
  · norm_num [BBox.union, union_bbox, BBox.volume, c4target, c4childA, c4childB]

/-! ### The R-tree of `src/lib.rs`

`NodeStorage` is flattened into the node constructors (`Interior`/`Leaf`
each also carry the node's `bbox`); the `Mbr` trait bound becomes an
explicit `mbr : T → BBox` function argument.  Rust panics — every
`unimplemented!()` as well as `best_fit`'s `unreachable!` — are `none`
results. -/

/-- `NODE_SIZE`: node capacity. -/
def NODE_SIZE : Nat := 64

/-- `LeafItem`: a stored item together with its cached bounding box. -/
structure LeafItem (T : Type) where
  bbox : BBox
  item : T
deriving DecidableEq, Repr

/-- `LeafItem::new`: cache `item.mbr()`. -/
def LeafItem.new {T : Type} (mbr : T → BBox) (item : T) : LeafItem T :=
  ⟨mbr item, item⟩

/-- `RTreeNode` with its `NodeStorage`: an interior node holds child
nodes, a leaf holds `LeafItem`s; both carry the node's bounding box. -/
inductive RTreeNode (T : Type) where
  | interior : BBox → List (RTreeNode T) → RTreeNode T
  | leaf : BBox → List (LeafItem T) → RTreeNode T
deriving Repr

/-- The `bbox` field of a node; also `impl Mbr for RTreeNode`. -/
def RTreeNode.bbox {T : Type} : RTreeNode T → BBox
  | .interior b _ => b
  | .leaf b _ => b

/-- `NodeStorage::shallow_len`: number of direct children/entries. -/
def RTreeNode.shallow_len {T : Type} : RTreeNode T → Nat
  | .interior _ children => children.length
  | .leaf _ items => items.length

/-- `RTreeNode::is_full`: `NODE_SIZE <= shallow_len`. -/
def RTreeNode.is_full {T : Type} (n : RTreeNode T) : Bool :=
  NODE_SIZE ≤ n.shallow_len

mutual

/-- `NodeStorage::deep_len`: number of stored items beneath the node
(`Leaf` length, or the sum over interior children). -/
def RTreeNode.deep_len {T : Type} : RTreeNode T → Nat
  | .interior _ children => deep_len_sum children
  | .leaf _ items => items.length

/-- Helper for `deep_len`: `vec.iter().map(deep_len).fold(0, |a,x| a+x)`. -/
def deep_len_sum {T : Type} : List (RTreeNode T) → Nat
  | [] => 0
  | n :: rest => n.deep_len + deep_len_sum rest

end

/-- `InsertionResult` from `src/lib.rs`.  Its doc comments: `Fit` — "the
inserted element fit and the bounding box was not changed"; `Expanded` —
"the inserted element fit and the bounding box was changed"; `Split` —
"the element did not fit, so the node was split". -/
inductive InsertionResult (T : Type) where
  | Fit
  | Expanded
  | Split (items : List T)
deriving DecidableEq, Repr

/-- `RTreeNode::insert`.  A `none` result is a panic: the
`unimplemented!()` arms for a `None` best fit and for `Expanded`/`Split`
child outcomes, propagated.  A full node returns `Split(vec![item])`
untouched; a non-full leaf appends the entry, unions its box with the
item's box and returns `Fit` unconditionally. -/
def RTreeNode.insert {T : Type} (mbr : T → BBox) :
    RTreeNode T → T → Option (RTreeNode T × InsertionResult T)
  | .interior bbox children, item =>
    if RTreeNode.is_full (.interior bbox children) then
      some (.interior bbox children, .Split [item])
    else
      match util.best_fit RTreeNode.bbox (mbr item) children with
      | none => none
      | some none => none
      | some (some best_child) =>
        match h : children.get? best_child with
        | none => none
        | some child =>
          match RTreeNode.insert mbr child item with
          | none => none
          | some (child', .Fit) =>
            some (.interior bbox (children.set best_child child'), .Fit)
          | some (_, .Expanded) => none
          | some (_, .Split _) => none
  | .leaf bbox nodes, item =>
    if RTreeNode.is_full (.leaf bbox nodes) then
      some (.leaf bbox nodes, .Split [item])
    else
      some (.leaf (bbox.union (mbr item)) (nodes ++ [LeafItem.new mbr item]), .Fit)
termination_by n _ => sizeOf n
decreasing_by
  have hm : child ∈ children := List.get?_mem h
  have := List.sizeOf_lt_of_mem hm
  simp only [RTreeNode.interior.sizeOf_spec]
  omega

/-- `RTreeNode::new`: a fresh leaf holding just `item`. -/
def RTreeNode.new {T : Type} (mbr : T → BBox) (item : T) : RTreeNode T :=
  .leaf (mbr item) [LeafItem.new mbr item]

/-- `RTree`: an optional root node. -/
def RTree (T : Type) : Type := Option (RTreeNode T)

/-- `RTree::insert`.  Empty tree: make a fresh leaf root.  Otherwise call
the root's insert; the `Expanded` and `Split` arms are `unimplemented!()`
(a `none` result), `Fit` keeps the root. -/
def RTree.insert {T : Type} (mbr : T → BBox) (t : RTree T) (item : T) :
    Option (RTree T) :=
  match t with
  | none => some (some (RTreeNode.new mbr item))
  | some node =>
    match node.insert mbr item with
    | none => none
    | some (node', .Fit) => some (some node')
    | some (_, .Expanded) => none
    | some (_, .Split _) => none

/-- Fold `RTree::insert` over a list of items, propagating panics. -/
def RTree.insertAll {T : Type} (mbr : T → BBox) (t : RTree T) :
    List T → Option (RTree T)
  | [] => some t
  | x :: rest =>
    match RTree.insert mbr t x with
    | none => none
    | some t2 => RTree.insertAll mbr t2 rest

/-! ### Claim C2

Only two code paths of the insertion machinery are implemented: a fresh
leaf root, and appending to a non-full leaf.  Every insertion into a tree
whose (leaf) root is full reaches `InsertionResult::Split` at the root,
whose arm in `RTree::insert` is `unimplemented!()` — a panic.  So the
65th insertion of any well-formed item panics. -/

theorem insertAll_append {T : Type} (mbr : T → BBox) (t : RTree T)
    (l1 l2 : List T) :
    RTree.insertAll mbr t (l1 ++ l2) =
      match RTree.insertAll mbr t l1 with
      | none => none
      | some t2 => RTree.insertAll mbr t2 l2 := by
  induction l1 generalizing t with
  | nil => simp [RTree.insertAll]
  | cons x rest ih =>
    simp only [List.cons_append, RTree.insertAll]
    cases RTree.insert mbr t x with
    | none => rfl
    | some t2 => exact ih t2

theorem insertAll_replicate_leaf (b : BBox) (i j : Nat) (hi : 1 ≤ i)
    (hij : i + j ≤ 64) :
    RTree.insertAll (T := BBox) id
        (some (RTreeNode.leaf b (List.replicate i ⟨b, b⟩)))
        (List.replicate j b) =
      some (some (RTreeNode.leaf b (List.replicate (i + j) ⟨b, b⟩))) := by
  induction j generalizing i with
  | zero => simp [RTree.insertAll]
  | succ k ih =>
    rw [List.replicate_succ, RTree.insertAll]
    have hfull : RTreeNode.is_full (T := BBox)
        (RTreeNode.leaf b (List.replicate i ⟨b, b⟩)) = false := by
      simp only [RTreeNode.is_full, RTreeNode.shallow_len, List.length_replicate,
        NODE_SIZE, decide_eq_false_iff_not]
      omega
    rw [RTree.insert, RTreeNode.insert, hfull]
    simp only [Bool.false_eq_true, if_false, id_eq, BBox.union, union_self,
      LeafItem.new]
    have hrep : List.replicate i (⟨b, b⟩ : LeafItem BBox) ++ [⟨b, b⟩] =
        List.replicate (i + 1) ⟨b, b⟩ := (List.replicate_succ' _ _).symm
    rw [hrep]
    have harr : i + (k + 1) = (i + 1) + k := by omega
    rw [harr]
    exact ih (i := i + 1) (by omega) (by omega)

/-- **C2 (code bug).**  For any box `b` (in particular any well-formed
finite one): the first 64 insertions of an item with box `b` into an
empty tree succeed and the tree's content grows one element per
insertion (64 stored items afterwards), but the 65th insertion panics —
the full leaf root reports `Split`, whose arm in `RTree::insert` is
`unimplemented!()` — contradicting the claim that insertion never fails
for well-formed finite boxes. -/
theorem C2_insert_65th_panics (b : BBox) :
    RTree.insertAll (T := BBox) id none (List.replicate 64 b) =
      some (some (RTreeNode.leaf b (List.replicate 64 ⟨b, b⟩))) ∧
    (RTreeNode.leaf b (List.replicate 64 (⟨b, b⟩ : LeafItem BBox))).deep_len = 64 ∧
    RTree.insertAll (T := BBox) id none (List.replicate 65 b) = none := by
  have h64 : RTree.insertAll (T := BBox) id none (List.replicate 64 b) =
      some (some (RTreeNode.leaf b (List.replicate 64 ⟨b, b⟩))) := by
    have : (List.replicate 64 b) = b :: List.replicate 63 b := rfl
    rw [this, RTree.insertAll, RTree.insert]
    have := insertAll_replicate_leaf b 1 63 (by omega) (by omega)
    simpa [RTreeNode.new, LeafItem.new] using this
  refine ⟨h64, by simp [RTreeNode.deep_len], ?_⟩
  have h65 : (List.replicate 65 b) = List.replicate 64 b ++ [b] := by
    rw [← List.replicate_succ' 64 b]
  have hfull : RTreeNode.is_full (T := BBox)
      (RTreeNode.leaf b (List.replicate 64 ⟨b, b⟩)) = true := by
    simp [RTreeNode.is_full, RTreeNode.shallow_len, NODE_SIZE]
  rw [h65, insertAll_append, h64]
  simp only [RTree.insertAll, RTree.insert, RTreeNode.insert, hfull, if_true]

/-! ### Claim C3

A non-full leaf appends the entry and unions the node box exactly as
claimed, but returns `Fit` *unconditionally* — even when the box changed,
where both the claim and the source's own doc comments on
`InsertionResult` require `Expanded`. -/

/-- C3 failing input: the leaf's original box / first entry. -/
def c3box1 : BBox := ⟨⟨0, 0, 0⟩, ⟨1, 1, 1⟩⟩

/-- C3 failing input: the inserted item's box (disjoint from the leaf's
box, so the union strictly expands the node box). -/
def c3box2 : BBox := ⟨⟨2, 2, 2⟩, ⟨3, 3, 3⟩⟩

/-- **C3 (code bug).**  Inserting into a one-entry (non-full) leaf
appends the entry and sets the node's box to the union of the old box and
the item's box — but reports `Fit`, although the node's box changed from
`[0,1]³` to `[0,3]³`; the source's own `InsertionResult` doc comments
("the bounding box was not changed") and the claim both require
`Expanded` here. -/
theorem C3_leaf_insert_reports_fit :
    RTreeNode.insert (T := BBox) id (.leaf c3box1 [⟨c3box1, c3box1⟩]) c3box2 =
      some (.leaf ⟨⟨0, 0, 0⟩, ⟨3, 3, 3⟩⟩ [⟨c3box1, c3box1⟩, ⟨c3box2, c3box2⟩],
            .Fit) ∧
    (⟨⟨0, 0, 0⟩, ⟨3, 3, 3⟩⟩ : BBox) ≠ c3box1 := by
  constructor
  · rw [RTreeNode.insert]
    norm_num [RTreeNode.is_full, RTreeNode.shallow_len, NODE_SIZE, BBox.union,
      union_bbox, LeafItem.new, c3box1, c3box2]
  · decide

/-! ### Extended floating-point scalars

`F` models an `f64` value as NaN, ±infinity or an exact finite rational.
The operations below follow IEEE-754: NaN propagates through arithmetic,
`∞ - ∞` and `0 · ∞` are NaN, and every comparison involving NaN is false.
Finite arithmetic is exact (rounding is not modelled).  Rust's
`f64::min`/`f64::max` ignore a NaN operand, as `fmin`/`fmax` do here. -/

inductive F where
  | nan : F
  | ninf : F
  | pinf : F
  | fin : ℚ → F
deriving DecidableEq, Repr

/-- NaN test. -/
def F.isNan : F → Bool
  | .nan => true
  | _ => false

/-- IEEE subtraction on extended values. -/
def F.sub : F → F → F
  | .nan, _ => .nan
  | _, .nan => .nan
  | .pinf, .pinf => .nan
  | .pinf, _ => .pinf
  | .ninf, .ninf => .nan
  | .ninf, _ => .ninf
  | .fin _, .pinf => .ninf
  | .fin _, .ninf => .pinf
  | .fin a, .fin b => .fin (a - b)

/-- IEEE multiplication on extended values (`0 · ∞ = NaN`). -/
def F.mul : F → F → F
  | .nan, _ => .nan
  | _, .nan => .nan
  | .fin a, .fin b => .fin (a * b)
  | .fin a, .pinf => if 0 < a then .pinf else if a < 0 then .ninf else .nan
  | .fin a, .ninf => if 0 < a then .ninf else if a < 0 then .pinf else .nan
  | .pinf, .fin b => if 0 < b then .pinf else if b < 0 then .ninf else .nan
  | .ninf, .fin b => if 0 < b then .ninf else if b < 0 then .pinf else .nan
  | .pinf, .pinf => .pinf
  | .pinf, .ninf => .ninf
  | .ninf, .pinf => .ninf
  | .ninf, .ninf => .pinf

/-- IEEE `<` (false whenever an operand is NaN). -/
def F.lt : F → F → Bool
  | .nan, _ => false
  | _, .nan => false
  | .ninf, .ninf => false
  | .ninf, _ => true
  | _, .ninf => false
  | .pinf, _ => false
  | .fin _, .pinf => true
  | .fin a, .fin b => a < b

/-- IEEE `<=` (false whenever an operand is NaN). -/
def F.le : F → F → Bool
  | .nan, _ => false
  | _, .nan => false
  | .ninf, _ => true
  | _, .ninf => false
  | _, .pinf => true
  | .pinf, _ => false
  | .fin a, .fin b => a ≤ b

/-- Rust `f64::min`: ignores a NaN operand, otherwise the smaller value. -/
def F.fmin (a b : F) : F :=
  if a.isNan then b else if b.isNan then a else if F.lt a b then a else b

/-- Rust `f64::max`: ignores a NaN operand, otherwise the larger value. -/
def F.fmax (a b : F) : F :=
  if a.isNan then b else if b.isNan then a else if F.lt a b then b else a

/-- A 3-vector of extended scalars. -/
structure Vec3F where
  x : F
  y : F
  z : F
deriving DecidableEq, Repr

/-- A bounding box with extended-scalar corners, for the claims about NaN
behaviour of `src/bbox.rs` operations. -/
structure BBoxF where
  min : Vec3F
  max : Vec3F
deriving DecidableEq, Repr

/-- `BBox::volume` over extended scalars (left-associated product of the
three side lengths). -/
def BBoxF.volume (b : BBoxF) : F :=
  ((b.max.x.sub b.min.x).mul (b.max.y.sub b.min.y)).mul (b.max.z.sub b.min.z)

/-- `bbox.rs::union_bbox` over extended scalars. -/
def union_bboxF (b1 b2 : BBoxF) : BBoxF :=
  { min := ⟨F.fmin b1.min.x b2.min.x, F.fmin b1.min.y b2.min.y, F.fmin b1.min.z b2.min.z⟩
    max := ⟨F.fmax b1.max.x b2.max.x, F.fmax b1.max.y b2.max.y, F.fmax b1.max.z b2.max.z⟩ }

/-- `BBox::union` over extended scalars. -/
def BBoxF.union (b other : BBoxF) : BBoxF :=
  union_bboxF b other

/-- `BBox::contains` over extended scalars (every comparison false on
NaN). -/
def BBoxF.contains (b other : BBoxF) : Bool :=
  F.le b.min.x other.min.x &&
  F.le b.min.y other.min.y &&
  F.le b.min.z other.min.z &&
  F.le other.max.x b.max.x &&
  F.le other.max.y b.max.y &&
  F.le other.max.z b.max.z

/-! ### `util::pick_seeds` and `util::best_fit` over extended scalars

These mirror the `ℚ` versions above but keep the possibility of NaN, to
settle what each procedure does when a NaN volume is encountered during a
comparison: `best_fit` has an explicit `panic!("volume must not be NaN")`
(modelled as `none`), while `pick_seeds` has no check at all — a NaN
waste makes `difference < min_d` false, so the pair is silently
skipped. -/

/-- The loop of `util::pick_seeds` over extended scalars.  No NaN check
exists in the source. -/
def pick_seedsF_go : List (BBoxF × BBoxF) → F → Option (BBoxF × BBoxF) → Option (BBoxF × BBoxF)
  | [], _, best_box => best_box
  | (e1, e2) :: rest, min_d, best_box =>
    let difference := ((e1.union e2).volume.sub e1.volume).sub e2.volume
    if F.lt difference min_d then
      pick_seedsF_go rest difference (some (e1, e2))
    else
      pick_seedsF_go rest min_d best_box

/-- `util::pick_seeds` over extended scalars. -/
def pick_seedsF (children : List (BBoxF × BBoxF)) : Option (BBoxF × BBoxF) :=
  pick_seedsF_go children (.fin f64MAX) none

/-- Containment phase of `util::best_fit` over extended scalars, with the
source's `panic!("volume must not be NaN")` modelled as `none`. -/
def best_fitF_phase1 (target : BBoxF) :
    List BBoxF → F → Option Nat → Nat → Option (F × Option Nat)
  | [], min_volume, best_idx, _ => some (min_volume, best_idx)
  | bbox :: rest, min_volume, best_idx, idx =>
    let volume := bbox.volume
    if volume.isNan then none
    else if bbox.contains target ∧ F.lt volume min_volume then
      best_fitF_phase1 target rest volume (some idx) (idx + 1)
    else
      best_fitF_phase1 target rest min_volume best_idx (idx + 1)

/-- Least-union-volume phase of `util::best_fit` over extended scalars,
with its NaN panic modelled as `none`. -/
def best_fitF_phase2 (target : BBoxF) :
    List BBoxF → F → Option Nat → Nat → Option (Option Nat)
  | [], _, best_idx, _ => some best_idx
  | bbox :: rest, min_volume, best_idx, idx =>
    let volume := (bbox.union target).volume
    if volume.isNan then none
    else if F.lt volume min_volume then
      best_fitF_phase2 target rest volume (some idx) (idx + 1)
    else
      best_fitF_phase2 target rest min_volume best_idx (idx + 1)

/-- `util::best_fit` over extended scalars.  `none` is a panic (a NaN
volume, or the trailing `unreachable!`); `some none` is the `None` return
for an empty slice. -/
def best_fitF (target : BBoxF) (children : List BBoxF) : Option (Option Nat) :=
  if children.length = 0 then
    some none
  else
    match best_fitF_phase1 target children (.fin f64MAX) none 0 with
    | none => none
    | some (_, some idx) => some (some idx)
    | some (min_volume, none) =>
      match best_fitF_phase2 target children min_volume none 0 with
      | none => none
      | some (some idx) => some (some idx)
      | some none => none

/-! ### Claim C8 -/

/-- A box whose volume is NaN: all corner components are `+∞`, so each
side length is `∞ - ∞ = NaN`. -/
def nanBoxF : BBoxF :=
  ⟨⟨.pinf, .pinf, .pinf⟩, ⟨.pinf, .pinf, .pinf⟩⟩

/-- An ordinary finite box (the unit cube) over extended scalars. -/
def okBoxF : BBoxF :=
  ⟨⟨.fin 0, .fin 0, .fin 0⟩, ⟨.fin 1, .fin 1, .fin 1⟩⟩

theorem best_fitF_phase1_nan (target : BBoxF) :
    ∀ (l : List BBoxF) (mv : F) (bi : Option Nat) (idx : Nat),
      (∃ b ∈ l, (BBoxF.volume b).isNan = true) →
      best_fitF_phase1 target l mv bi idx = none := by
  intro l
  induction l with
  | nil => intro mv bi idx h; simp at h
  | cons b rest ih =>
    intro mv bi idx h
    rcases h with ⟨c, hc, hnan⟩
    rcases List.mem_cons.mp hc with rfl | hmem
    · rw [best_fitF_phase1]
      simp only [hnan, if_true]
    · rw [best_fitF_phase1]
      by_cases hb : (BBoxF.volume b).isNan = true
      · simp only [hb, if_true]
      · simp only [Bool.not_eq_true] at hb
        simp only [hb, Bool.false_eq_true, if_false]
        split
        · exact ih _ _ _ ⟨c, hmem, hnan⟩
        · exact ih _ _ _ ⟨c, hmem, hnan⟩

/-- **C8 counterexample.**  PickSeeds does *not* abort on a NaN volume:
on an input whose first candidate pair has NaN waste (shown by the second
conjunct), `pick_seeds` silently skips that candidate — a NaN comparison
is false — and returns the other pair as an ordinary result. -/
theorem C8_counterexample :
    pick_seedsF [(nanBoxF, nanBoxF), (okBoxF, okBoxF)] = some (okBoxF, okBoxF) ∧
    (((nanBoxF.union nanBoxF).volume.sub nanBoxF.volume).sub nanBoxF.volume).isNan
      = true := by
  constructor
  · norm_num [pick_seedsF, pick_seedsF_go, BBoxF.union, union_bboxF, BBoxF.volume,
      nanBoxF, okBoxF, F.sub, F.mul, F.fmin, F.fmax, F.isNan, F.lt, f64MAX]
  · decide

/-- **C8 (amended).**  Inside ChooseSubtree (`util::best_fit`) a NaN
child volume encountered by the comparison loop is indeed a fatal panic
(`none`), for every target and child list.  But inside PickSeeds a NaN
waste is *silently skipped*, not fatal: comparison with NaN is false, so
the candidate is passed over and an ordinary (arbitrary-looking) choice
is returned, as the concrete second conjunct shows. -/
theorem C8_nan_amended :
    (∀ (target : BBoxF) (children : List BBoxF),
      (∃ b ∈ children, (BBoxF.volume b).isNan = true) →
      best_fitF target children = none) ∧
    pick_seedsF [(nanBoxF, nanBoxF), (okBoxF, okBoxF)] = some (okBoxF, okBoxF) := by
  constructor
  · intro target children h
    have hne : children.length ≠ 0 := by
      rcases h with ⟨b, hb, _⟩
      exact List.length_pos.mpr (List.ne_nil_of_mem hb) |>.ne'
    rw [best_fitF, if_neg hne, best_fitF_phase1_nan target children _ _ _ h]
  · norm_num [pick_seedsF, pick_seedsF_go, BBoxF.union, union_bboxF, BBoxF.volume,
      nanBoxF, okBoxF, F.sub, F.mul, F.fmin, F.fmax, F.isNan, F.lt, f64MAX]

/-- **C8 witness.**  The amended theorem applied at a concrete input: a
single NaN-volume child makes `best_fit` panic. -/
theorem C8_nan_amended_witness :
    best_fitF okBoxF [nanBoxF] = none :=
  C8_nan_amended.1 okBoxF [nanBoxF] ⟨nanBoxF, by decide, by decide⟩

/-! ### `src/ray.rs` and `BBox::intersects`

Box corners and ray origin/direction are finite (`ℚ`), as stored boxes
are; the precomputed reciprocal components live in `F` because `1/0` is
`+∞` and the slab products can then be `±∞` or NaN.  (`ℚ` has no negative
zero, so the IEEE quotient of 1 by -0, which is `-∞`, is not
representable; direction components here are
exact rationals.) -/

/-- `1.0 / d` as an extended scalar: `+∞` at `d = 0`, else exact. -/
def recipF (d : ℚ) : F :=
  if d = 0 then .pinf else .fin (1 / d)

/-- Multiply a finite scalar by an extended scalar (the slab products
`(bound - origin) * inverse_dir`). -/
def F.mulQ (q : ℚ) (f : F) : F :=
  F.mul (.fin q) f

/-- `Ray` from `src/ray.rs`: origin and direction plus the cached
reciprocal direction and its sign bits. -/
structure Ray where
  origin : Vec3
  direction : Vec3
  inverse_dir : Vec3F
  signs : Bool × Bool × Bool

/-- `Ray::new`: compute the three reciprocals and `signs[i] = inv_i > 0`. -/
def Ray.new (origin direction : Vec3) : Ray :=
  { origin := origin
    direction := direction
    inverse_dir := ⟨recipF direction.x, recipF direction.y, recipF direction.z⟩
    signs := (F.lt (.fin 0) (recipF direction.x),
              F.lt (.fin 0) (recipF direction.y),
              F.lt (.fin 0) (recipF direction.z)) }

/-- The x-axis slab interval `(t_min, t_max)` of `BBox::intersects`
(source lines 111–117): the `(min_bound, max_bound)` corner pair is
selected by `ray.signs[0]` and multiplied by the cached reciprocal. -/
def slabX (b : BBox) (r : Ray) : F × F :=
  let mm := if r.signs.1 then (b.min, b.max) else (b.max, b.min)
  (F.mulQ (mm.1.x - r.origin.x) r.inverse_dir.x,
   F.mulQ (mm.2.x - r.origin.x) r.inverse_dir.x)

/-- The y-axis slab interval `(ty_min, ty_max)` of `BBox::intersects`
(source lines 119–125). -/
def slabY (b : BBox) (r : Ray) : F × F :=
  let mm := if r.signs.2.1 then (b.min, b.max) else (b.max, b.min)
  (F.mulQ (mm.1.y - r.origin.y) r.inverse_dir.y,
   F.mulQ (mm.2.y - r.origin.y) r.inverse_dir.y)

/-- The z-axis slab interval `(tz_min, tz_max)` of `BBox::intersects`
(source lines 137–143). -/
def slabZ (b : BBox) (r : Ray) : F × F :=
  let mm := if r.signs.2.2 then (b.min, b.max) else (b.max, b.min)
  (F.mulQ (mm.1.z - r.origin.z) r.inverse_dir.z,
   F.mulQ (mm.2.z - r.origin.z) r.inverse_dir.z)

/-- `BBox::intersects`: the slab test of `src/bbox.rs`, with the per-axis
interval computations hoisted into `slabX`/`slabY`/`slabZ` and the
mutable `t_min`/`t_max` updates (`if a > b { b = a }`) as inline
conditionals.  The final acceptance is `t_min < INFINITY && t_max >
0.0`. -/
def BBox.intersects (b : BBox) (ray : Ray) : Bool :=
  let t_min := (slabX b ray).1
  let t_max := (slabX b ray).2
  let ty_min := (slabY b ray).1
  let ty_max := (slabY b ray).2
  if F.lt ty_max t_min || F.lt t_max ty_min then false
  else
    let t_min2 := if F.lt t_min ty_min then ty_min else t_min
    let t_max2 := if F.lt ty_max t_max then ty_max else t_max
    let tz_min := (slabZ b ray).1
    let tz_max := (slabZ b ray).2
    if F.lt tz_max t_min2 || F.lt t_max2 tz_min then false
    else
      let t_min3 := if F.lt t_min2 tz_min then tz_min else t_min2
      let t_max3 := if F.lt tz_max t_max2 then tz_max else t_max2
      F.lt t_min3 .pinf && F.lt (.fin 0) t_max3

/-! ### Claim C6: the slab test characterised as the claim states it -/

/-- Modelled from the claim: intersect the running parametric interval
with the next axis interval, rejecting early (`none`) when the running
interval becomes empty. -/
def combineSlab : Option (F × F) → F × F → Option (F × F)
  | none, _ => none
  | some (lo, hi), (lo2, hi2) =>
    if F.lt hi2 lo || F.lt hi lo2 then none
    else some ((if F.lt lo lo2 then lo2 else lo), (if F.lt hi2 hi then hi2 else hi))

/-- Modelled from the claim: accept exactly when, after intersecting the
three per-axis slab intervals with early rejection, the resulting
interval starts strictly before `+∞` and ends strictly after `0`. -/
def intersectsClaim (b : BBox) (r : Ray) : Bool :=
  match combineSlab (combineSlab (some (slabX b r)) (slabY b r)) (slabZ b r) with
  | none => false
  | some (lo, hi) => F.lt lo .pinf && F.lt (.fin 0) hi

/-- C6 demonstration box for zero direction components:
`[95,105] × [-5,5] × [-5,5]`. -/
def c6box : BBox := ⟨⟨95, -5, -5⟩, ⟨105, 5, 5⟩⟩

/-- C6 demonstration ray: origin at the world origin, direction
`(1, 0, 0)` — the y and z reciprocals are infinite. -/
def c6ray : Ray := Ray.new ⟨0, 0, 0⟩ ⟨1, 0, 0⟩

/-- **C6.**  `BBox::intersects` returns true exactly when the claim's
slab-interval computation accepts: intersect the three per-axis intervals
(near/far corner by sign bit, early rejection on an empty running
interval) and require the result to start strictly before `+∞` and end
strictly after `0` — so an interval ending at or before `t = 0` (an
intersection strictly behind the origin) is rejected.  Moreover zero
direction components are handled, not rejected: the demonstration ray
with direction `(1,0,0)` has infinite y and z reciprocals yet intersects
the demonstration box. -/
theorem C6_intersects_slab_characterisation :
    (∀ (b : BBox) (r : Ray), b.intersects r = intersectsClaim b r) ∧
    (c6ray.inverse_dir.y = .pinf ∧ c6ray.inverse_dir.z = .pinf ∧
      c6box.intersects c6ray = true) := by
  constructor
  · intro b r
    rcases hsx : slabX b r with ⟨xlo, xhi⟩
    rcases hsy : slabY b r with ⟨ylo, yhi⟩
    rcases hsz : slabZ b r with ⟨zlo, zhi⟩
    unfold BBox.intersects intersectsClaim
    rw [hsx, hsy, hsz]
    simp only [combineSlab]
    by_cases h1 : (F.lt yhi xlo || F.lt xhi ylo) = true
    · simp [h1, combineSlab]
    · simp only [h1, Bool.false_eq_true, if_false, if_neg h1, combineSlab]
      by_cases h2 : (F.lt zhi (if F.lt xlo ylo then ylo else xlo) ||
          F.lt (if F.lt yhi xhi then yhi else xhi) zlo) = true
      · simp [h2]
      · simp [h2]
  · refine ⟨by norm_num [c6ray, Ray.new, recipF], by norm_num [c6ray, Ray.new, recipF],
      ?_⟩
    norm_num [c6box, c6ray, BBox.intersects, slabX, slabY, slabZ, Ray.new, recipF,
      F.mulQ, F.mul, F.lt]

/-! ### The ray-query iterator (`Iter` of `src/lib.rs`)

`Iter` keeps a stack of nodes (last pushed on top — modelled with the
list head as the stack top) and an optional open leaf-entry iterator.
Each `next()` first scans the open entry sequence for the next entry
whose cached box intersects the ray, else pops a node: an interior node
pushes its ray-intersecting children in order (so they pop in reverse),
a leaf opens its entries.  `iterCollect` runs this state machine to
exhaustion, returning every yielded item in yield order. -/

mutual

/-- Structural weight of a node (termination measure for `iterCollect`;
the auto-generated `sizeOf` of the nested inductive is noncomputable). -/
def nodeWeight {T : Type} : RTreeNode T → Nat
  | .interior _ children => 1 + listWeight children
  | .leaf _ items => 1 + items.length

/-- Total weight of a node stack. -/
def listWeight {T : Type} : List (RTreeNode T) → Nat
  | [] => 0
  | n :: rest => nodeWeight n + listWeight rest

end

theorem listWeight_append {T : Type} (l1 l2 : List (RTreeNode T)) :
    listWeight (l1 ++ l2) = listWeight l1 + listWeight l2 := by
  induction l1 with
  | nil => simp [listWeight]
  | cons n rest ih =>
    simp only [List.cons_append, listWeight, List.append_eq, ih]
    omega

theorem listWeight_reverse {T : Type} (l : List (RTreeNode T)) :
    listWeight l.reverse = listWeight l := by
  induction l with
  | nil => rfl
  | cons n rest ih =>
    simp only [List.reverse_cons, listWeight_append, ih, listWeight]
    omega

theorem listWeight_filter_le {T : Type} (p : RTreeNode T → Bool)
    (l : List (RTreeNode T)) : listWeight (l.filter p) ≤ listWeight l := by
  induction l with
  | nil => simp [listWeight]
  | cons n rest ih =>
    rw [List.filter_cons]
    split
    · simp only [listWeight]; omega
    · simp only [listWeight]; omega

/-- The `Iter::next` state machine of `src/lib.rs`, run to exhaustion.
State: the node stack (head = top) and the remaining entries of the
currently open leaf.  A non-empty entry list is scanned for the next
ray-intersecting entry (`leaf_iter.filter(..).next()`); an exhausted one
falls back to popping the stack: interior children whose box intersects
the ray are pushed in order (hence popped in reverse), a leaf's entries
are opened. -/
def iterCollect {T : Type} (ray : Ray) :
    List (RTreeNode T) → List (LeafItem T) → List T
  | stack, it :: rest =>
    if it.bbox.intersects ray then it.item :: iterCollect ray stack rest
    else iterCollect ray stack rest
  | node :: stack, [] =>
    match node with
    | .interior _ children =>
      iterCollect ray
        ((children.filter (fun c => c.bbox.intersects ray)).reverse ++ stack) []
    | .leaf _ items => iterCollect ray stack items
  | [], [] => []
termination_by stack cur => listWeight stack + cur.length
decreasing_by
  · simp only [List.length_cons]; omega
  · simp only [List.length_cons]; omega
  · simp only [List.length_nil, Nat.add_zero, listWeight, listWeight_append,
      listWeight_reverse, nodeWeight]
    exact Nat.lt_of_le_of_lt
      (Nat.add_le_add_right (listWeight_filter_le _ _) _) (by omega)
  · simp only [List.length_nil, Nat.add_zero, listWeight, nodeWeight]
    omega

/-! ### Claim C7

Six spheres along the x-axis inserted into an empty tree all land in one
(non-full) leaf root, and the axis ray's query yields all six. -/

/-- `Sphere` from `src/test_helpers/mod.rs`. -/
structure Sphere where
  origin : Vec3
  radius : ℚ
deriving DecidableEq, Repr

/-- `impl Mbr for Sphere`: corner points at `origin ∓ radius`. -/
def Sphere.mbr (s : Sphere) : BBox :=
  ⟨s.origin.subScalar s.radius, s.origin.addScalar s.radius⟩

/-- The six spheres of the claim, in insertion order. -/
def c7spheres : List Sphere :=
  [⟨⟨100, 0, 0⟩, 5⟩, ⟨⟨120, 0, 0⟩, 15⟩, ⟨⟨140, 0, 0⟩, 25⟩,
   ⟨⟨160, 0, 0⟩, 35⟩, ⟨⟨180, 0, 0⟩, 45⟩, ⟨⟨200, 0, 0⟩, 55⟩]

/-- The claim's query ray: origin `(0,0,0)`, direction `(1,0,0)`. -/
def c7ray : Ray := Ray.new ⟨0, 0, 0⟩ ⟨1, 0, 0⟩

/-- The tree resulting from the six insertions: a single leaf root whose
box is the running union of the six sphere boxes, entries in insertion
order with their cached boxes. -/
def c7root : RTreeNode Sphere :=
  .leaf ⟨⟨95, -55, -55⟩, ⟨255, 55, 55⟩⟩
    [⟨⟨⟨95, -5, -5⟩, ⟨105, 5, 5⟩⟩, ⟨⟨100, 0, 0⟩, 5⟩⟩,
     ⟨⟨⟨105, -15, -15⟩, ⟨135, 15, 15⟩⟩, ⟨⟨120, 0, 0⟩, 15⟩⟩,
     ⟨⟨⟨115, -25, -25⟩, ⟨165, 25, 25⟩⟩, ⟨⟨140, 0, 0⟩, 25⟩⟩,
     ⟨⟨⟨125, -35, -35⟩, ⟨195, 35, 35⟩⟩, ⟨⟨160, 0, 0⟩, 35⟩⟩,
     ⟨⟨⟨135, -45, -45⟩, ⟨225, 45, 45⟩⟩, ⟨⟨180, 0, 0⟩, 45⟩⟩,
     ⟨⟨⟨145, -55, -55⟩, ⟨255, 55, 55⟩⟩, ⟨⟨200, 0, 0⟩, 55⟩⟩]

/-- **C7.**  Inserting the six spheres into an empty tree succeeds and
produces a single leaf root holding all six; running the ray-query
iterator for origin `(0,0,0)`, direction `(1,0,0)` on that tree yields
exactly the six spheres (here: in insertion order, which is "all six
objects in some order"). -/
theorem C7_six_spheres_ray_query :
    RTree.insertAll Sphere.mbr none c7spheres = some (some c7root) ∧
    iterCollect c7ray [c7root] [] = c7spheres := by
  constructor
  · norm_num [c7spheres, c7root, RTree.insertAll, RTree.insert, RTreeNode.insert,
      RTreeNode.new, RTreeNode.is_full, RTreeNode.shallow_len, NODE_SIZE,
      LeafItem.new, Sphere.mbr, Vec3.subScalar, Vec3.addScalar, BBox.union,
      union_bbox]
  · norm_num [c7spheres, c7root, c7ray, iterCollect, BBox.intersects,
      slabX, slabY, slabZ, Ray.new, recipF, F.mulQ, F.mul, F.lt]

/-! ### Claim C5: quadratic split non-emptiness and box coverage

Although the seed selection is degenerate (see C1), the assignment loop
still produces two non-empty groups for every input of at least two
entries whose volumes are in the finite `f64` range, and the union of the
two running group boxes covers exactly the union of all input boxes:
the first item always goes left (the initial group boxes are equal, and
equal group sizes fall through to the left), and the seed-box entry —
or, once the left box equals the right box, any entry — is sent right
while the right group is empty. -/

/-- Zipping a list with itself pairs every element with itself — the
shape `quad_split` hands to `pick_seeds`. -/
theorem zip_self_eq_map {α : Type} (l : List α) :
    l.zip l = l.map fun x => (x, x) := by
  induction l with
  | nil => rfl
  | cons x rest ih => simp [List.zip_cons_cons, ih]

theorem pick_seeds_go_isSome (l : List (BBox × BBox)) :
    ∀ (d : ℚ) (p : BBox × BBox), ∃ q, util.pick_seeds_go l d (some p) = some q := by
  induction l with
  | nil => exact fun d p => ⟨p, rfl⟩
  | cons e rest ih =>
    intro d p
    obtain ⟨e1, e2⟩ := e
    rw [util.pick_seeds_go]
    split
    · exact ih _ _
    · exact ih _ _

theorem pick_seeds_go_map_shape (M : List BBox) (l : List BBox) :
    ∀ (d : ℚ) (best : Option (BBox × BBox)),
      (∀ p, best = some p → p.1 = p.2 ∧ p.1 ∈ M) →
      (∀ x ∈ l, x ∈ M) →
      ∀ q, util.pick_seeds_go (l.map fun x => (x, x)) d best = some q →
        q.1 = q.2 ∧ q.1 ∈ M := by
  induction l with
  | nil =>
    intro d best hbest _ q hq
    exact hbest q hq
  | cons x rest ih =>
    intro d best hbest hl q hq
    rw [List.map_cons, util.pick_seeds_go] at hq
    split at hq
    · exact ih _ _ (fun p hp => by cases hp; exact ⟨rfl, hl x (List.mem_cons_self x rest)⟩)
        (fun y hy => hl y (List.mem_cons_of_mem x hy)) q hq
    · exact ih _ _ hbest (fun y hy => hl y (List.mem_cons_of_mem x hy)) q hq

/-- On a self-zipped non-empty list whose volumes are strictly above
`-f64::MAX`, `pick_seeds` returns some box of the list paired with
itself (the waste of a self-pair `(b, b)` is `-volume b`). -/
theorem pick_seeds_zip_self (l : List BBox) (hne : l ≠ [])
    (hfin : ∀ b ∈ l, -(b.volume) < f64MAX) :
    ∃ S, util.pick_seeds (l.zip l) = some (S, S) ∧ S ∈ l := by
  obtain ⟨x, rest, rfl⟩ := List.exists_cons_of_ne_nil hne
  rw [util.pick_seeds, zip_self_eq_map, List.map_cons, util.pick_seeds_go]
  have hcond : ((x.union x).volume - x.volume) - x.volume < f64MAX := by
    rw [BBox.union, union_self]
    have := hfin x (List.mem_cons_self x rest)
    linarith
  rw [if_pos hcond]
  obtain ⟨q, hq⟩ := pick_seeds_go_isSome (rest.map fun b => (b, b)) _ (x, x)
  have hshape := pick_seeds_go_map_shape (x :: rest) rest _ (some (x, x))
    (fun p hp => by cases hp; exact ⟨rfl, List.mem_cons_self x rest⟩)
    (fun y hy => List.mem_cons_of_mem x hy) q hq
  obtain ⟨q1, q2⟩ := q
  obtain ⟨hq12, hq1⟩ := hshape
  cases hq12
  exact ⟨q1, hq, hq1⟩

/-- The assignment loop only ever appends to the right group. -/
theorem quad_split_go_rights_extend {T : Type} (mbr : T → BBox) (rem : List T) :
    ∀ (lbox : BBox) (lefts : List T) (rbox : BBox) (rights : List T),
      ∃ l2, (util.quad_split_go mbr rem lbox lefts rbox rights).2.2.2 = rights ++ l2 := by
  induction rem with
  | nil =>
    intro lbox lefts rbox rights
    exact ⟨[], by simp [util.quad_split_go]⟩
  | cons item rest ih =>
    intro lbox lefts rbox rights
    rw [util.quad_split_go]
    split
    · exact ih _ _ _ _
    · split
      · obtain ⟨l2, hl2⟩ := ih lbox lefts ((mbr item).union rbox) (rights ++ [item])
        exact ⟨[item] ++ l2, by rw [hl2, List.append_assoc]⟩
      · split
        · exact ih _ _ _ _
        · split
          · obtain ⟨l2, hl2⟩ := ih lbox lefts ((mbr item).union rbox) (rights ++ [item])
            exact ⟨[item] ++ l2, by rw [hl2, List.append_assoc]⟩
          · exact ih _ _ _ _

/-- The assignment loop only ever appends to the left group. -/
theorem quad_split_go_lefts_extend {T : Type} (mbr : T → BBox) (rem : List T) :
    ∀ (lbox : BBox) (lefts : List T) (rbox : BBox) (rights : List T),
      ∃ l2, (util.quad_split_go mbr rem lbox lefts rbox rights).2.1 = lefts ++ l2 := by
  induction rem with
  | nil =>
    intro lbox lefts rbox rights
    exact ⟨[], by simp [util.quad_split_go]⟩
  | cons item rest ih =>
    intro lbox lefts rbox rights
    rw [util.quad_split_go]
    split
    · obtain ⟨l2, hl2⟩ := ih ((mbr item).union lbox) (lefts ++ [item]) rbox rights
      exact ⟨[item] ++ l2, by rw [hl2, List.append_assoc]⟩
    · split
      · exact ih _ _ _ _
      · split
        · obtain ⟨l2, hl2⟩ := ih ((mbr item).union lbox) (lefts ++ [item]) rbox rights
          exact ⟨[item] ++ l2, by rw [hl2, List.append_assoc]⟩
        · split
          · exact ih _ _ _ _
          · obtain ⟨l2, hl2⟩ := ih ((mbr item).union lbox) (lefts ++ [item]) rbox rights
            exact ⟨[item] ++ l2, by rw [hl2, List.append_assoc]⟩

/-- Started on equal group boxes with two empty groups, the loop sends
its first item left (equal expansions, equal sizes), so the final left
group is non-empty. -/
theorem quad_split_go_lefts_ne {T : Type} (mbr : T → BBox) (item : T)
    (rest : List T) (S : BBox) :
    (util.quad_split_go mbr (item :: rest) S [] S []).2.1 ≠ [] := by
  rw [util.quad_split_go]
  rw [if_neg (lt_irrefl _), if_neg (lt_irrefl _), if_neg (lt_irrefl _),
    if_neg (lt_irrefl _)]
  obtain ⟨l2, hl2⟩ :=
    quad_split_go_lefts_extend mbr rest ((mbr item).union S) ([] ++ [item]) S []
  rw [hl2]
  simp

theorem union_step_left (l r i : BBox) :
    union_bbox (union_bbox i l) r = union_bbox (union_bbox l r) i := by
  rw [union_comm i l, union_rot]

theorem union_step_right (l r i : BBox) :
    union_bbox l (union_bbox i r) = union_bbox (union_bbox l r) i := by
  rw [union_comm i r, ← union_assoc]

/-- Every processed item's box is unioned into one of the two running
group boxes, so the union of the two final group boxes is the initial
union extended by every remaining box. -/
theorem quad_split_go_union {T : Type} (mbr : T → BBox) (rem : List T) :
    ∀ (lbox : BBox) (lefts : List T) (rbox : BBox) (rights : List T),
      union_bbox (util.quad_split_go mbr rem lbox lefts rbox rights).1
          (util.quad_split_go mbr rem lbox lefts rbox rights).2.2.1 =
        (rem.map mbr).foldl union_bbox (union_bbox lbox rbox) := by
  induction rem with
  | nil =>
    intro lbox lefts rbox rights
    simp [util.quad_split_go]
  | cons item rest ih =>
    intro lbox lefts rbox rights
    rw [List.map_cons, List.foldl_cons, util.quad_split_go]
    split
    · rw [ih, BBox.union, union_step_left]
    · split
      · rw [ih, BBox.union, union_step_right]
      · split
        · rw [ih, BBox.union, union_step_left]
        · split
          · rw [ih, BBox.union, union_step_right]
          · rw [ih, BBox.union, union_step_left]

theorem foldl_union_contains_init (l : List BBox) :
    ∀ a : BBox, ((l.foldl union_bbox a).contains a) = true := by
  induction l with
  | nil => exact fun a => contains_rfl a
  | cons x rest ih =>
    intro a
    rw [List.foldl_cons]
    exact contains_trans (ih (union_bbox a x)) (union_contains_left a x)

theorem foldl_union_contains_mem (l : List BBox) :
    ∀ (a b : BBox), b ∈ l → ((l.foldl union_bbox a).contains b) = true := by
  induction l with
  | nil => intro a b hb; simp at hb
  | cons x rest ih =>
    intro a b hb
    rw [List.foldl_cons]
    rcases List.mem_cons.mp hb with rfl | hb2
    · exact contains_trans (foldl_union_contains_init rest (union_bbox a b))
        (union_contains_right a b)
    · exact ih _ b hb2

theorem foldl_union_lub (l : List BBox) :
    ∀ (a c : BBox), c.contains a = true → (∀ b ∈ l, c.contains b = true) →
      c.contains (l.foldl union_bbox a) = true := by
  induction l with
  | nil => intro a c ha _; exact ha
  | cons x rest ih =>
    intro a c ha hl
    rw [List.foldl_cons]
    exact ih _ c (union_lub ha (hl x (List.mem_cons_self x rest)))
      (fun b hb => hl b (List.mem_cons_of_mem x hb))

/-- Folding the union over all boxes starting from a *member* box gives
the same result as folding from the head. -/
theorem foldl_union_of_mem (b0 : BBox) (restboxes : List BBox) (S : BBox)
    (hS : S ∈ b0 :: restboxes) :
    (b0 :: restboxes).foldl union_bbox S = restboxes.foldl union_bbox b0 := by
  apply contains_antisymm
  · -- the S-started fold contains the head-started fold
    apply foldl_union_lub
    · exact foldl_union_contains_mem _ S b0 (List.mem_cons_self b0 restboxes)
    · exact fun b hb =>
        foldl_union_contains_mem _ S b (List.mem_cons_of_mem b0 hb)
  · -- the head-started fold contains the S-started fold
    rw [List.foldl_cons]
    apply foldl_union_lub
    · apply union_lub
      · rcases List.mem_cons.mp hS with rfl | hS2
        · exact foldl_union_contains_init restboxes _
        · exact foldl_union_contains_mem restboxes b0 S hS2
      · exact foldl_union_contains_init restboxes b0
    · intro b hb
      exact foldl_union_contains_mem restboxes b0 b hb

/-- The key invariant: whenever the loop state satisfies one of these
conditions — the right group already has an entry; the group boxes are
equal with a non-empty left group and items remaining; the right box is
still the seed box `S`, the left box has absorbed `S`, and an entry with
box `S` is still to come; or the pristine initial state with at least two
items — the final right group is non-empty. -/
theorem quad_split_go_rights_ne {T : Type} (mbr : T → BBox) (S : BBox) (rem : List T) :
    ∀ (lbox : BBox) (lefts : List T) (rbox : BBox) (rights : List T),
      (rights ≠ [] ∨
       (lefts ≠ [] ∧ rights = [] ∧ lbox = rbox ∧ rem ≠ []) ∨
       (lefts ≠ [] ∧ rights = [] ∧ rbox = S ∧ lbox.contains S = true ∧
         S ∈ rem.map mbr) ∨
       (2 ≤ rem.length ∧ lefts = [] ∧ rights = [] ∧ lbox = S ∧ rbox = S ∧
         S ∈ rem.map mbr)) →
      (util.quad_split_go mbr rem lbox lefts rbox rights).2.2.2 ≠ [] := by
  induction rem with
  | nil =>
    intro lbox lefts rbox rights h
    rcases h with h | h | h | h
    · simpa [util.quad_split_go] using h
    · exact absurd rfl h.2.2.2
    · simpa using h.2.2.2.2
    · simpa using h.1
  | cons item rest ih =>
    intro lbox lefts rbox rights h
    rcases h with h | h | h | h
    · -- the right group is already non-empty and only grows
      obtain ⟨l2, hl2⟩ :=
        quad_split_go_rights_extend mbr (item :: rest) lbox lefts rbox rights
      rw [hl2]
      simp [List.append_eq_nil, h]
    · -- equal group boxes, bigger left group: this item goes right
      obtain ⟨hlne, hre, hlr, -⟩ := h
      subst hre
      subst hlr
      rw [util.quad_split_go]
      rw [if_neg (lt_irrefl _), if_neg (lt_irrefl _), if_neg (by simp),
        if_pos (by simpa using List.length_pos.mpr hlne)]
      obtain ⟨l2, hl2⟩ := quad_split_go_rights_extend mbr rest lbox lefts
        ((mbr item).union lbox) ([] ++ [item])
      rw [hl2]
      simp
    · -- right box still the seed box, left box has absorbed it
      obtain ⟨hlne, hre, hrS, hcont, hSin⟩ := h
      subst hre
      rw [hrS]
      by_cases hx : mbr item = S
      · -- the seed entry itself: both expansions are zero, so it goes right
        rw [util.quad_split_go]
        have e1 : util.expansion lbox (mbr item) = 0 := by
          rw [hx, util.expansion, BBox.union, union_absorb_left hcont]
          ring
        have e2 : util.expansion S (mbr item) = 0 := by
          rw [hx, util.expansion, BBox.union, union_self]
          ring
        rw [e1, e2, if_neg (lt_irrefl _), if_neg (lt_irrefl _), if_neg (by simp),
          if_pos (by simpa using List.length_pos.mpr hlne)]
        obtain ⟨l2, hl2⟩ := quad_split_go_rights_extend mbr rest lbox lefts
          ((mbr item).union S) ([] ++ [item])
        rw [hl2]
        simp
      · have hSin2 : S ∈ rest.map mbr := by
          rw [List.map_cons] at hSin
          rcases List.mem_cons.mp hSin with h1 | h1
          · exact absurd h1.symm hx
          · exact h1
        rw [util.quad_split_go]
        split
        · -- strictly smaller left expansion: goes left, invariant kept
          apply ih
          right; right; left
          exact ⟨by simp, rfl, rfl,
            contains_trans (union_contains_right (mbr item) lbox) hcont, hSin2⟩
        · split
          · -- strictly smaller right expansion: goes right
            obtain ⟨l2, hl2⟩ := quad_split_go_rights_extend mbr rest lbox lefts
              ((mbr item).union S) ([] ++ [item])
            rw [hl2]
            simp
          · split
            · -- left group smaller than the empty right group: impossible
              rename_i hlt
              simp at hlt
            · split
              · -- right group strictly smaller: goes right
                obtain ⟨l2, hl2⟩ := quad_split_go_rights_extend mbr rest lbox lefts
                  ((mbr item).union S) ([] ++ [item])
                rw [hl2]
                simp
              · -- equal sizes would force `lefts = []`, contradiction
                rename_i h4
                exact absurd (by simpa using List.length_pos.mpr hlne) h4
    · -- pristine initial state: the first item goes left
      obtain ⟨hlen2, hle, hre, hlS, hrS, hSin⟩ := h
      subst hle
      subst hre
      rw [hlS, hrS]
      rw [util.quad_split_go]
      rw [if_neg (lt_irrefl _), if_neg (lt_irrefl _), if_neg (lt_irrefl _),
        if_neg (lt_irrefl _)]
      have hrest : rest ≠ [] := by
        simp only [List.length_cons] at hlen2
        exact List.ne_nil_of_length_pos (by omega)
      by_cases hx : mbr item = S
      · apply ih
        right; left
        refine ⟨by simp, rfl, ?_, hrest⟩
        rw [hx, BBox.union, union_self]
      · apply ih
        right; right; left
        refine ⟨by simp, rfl, rfl, union_contains_right (mbr item) S, ?_⟩
        rw [List.map_cons] at hSin
        rcases List.mem_cons.mp hSin with h1 | h1
        · exact absurd h1.symm hx
        · exact h1

/-- Modelled from the spec: the union of all input entries' boxes
(`none` when there are no entries). -/
def unionOfBoxes : List BBox → Option BBox
  | [] => none
  | b :: rest => some (rest.foldl union_bbox b)

/-- **C5.**  For every quadratic-split input of `NODE_SIZE + 1 = 65`
entries whose boxes are finite and comparable (their volumes lie
strictly above `-f64::MAX`, as every finite `f64` volume does), the
split succeeds and produces two non-empty groups, and the union of the
two output group boxes equals the union of all input entries' boxes. -/
theorem C5_quad_split_nonempty_cover {T : Type} (mbr : T → BBox) (items : List T)
    (hlen : items.length = NODE_SIZE + 1)
    (hfin : ∀ x ∈ items, -((mbr x).volume) < f64MAX) :
    ∃ lbox lefts rbox rights,
      util.quad_split mbr items = some (lbox, lefts, rbox, rights) ∧
      lefts ≠ [] ∧ rights ≠ [] ∧
      unionOfBoxes (items.map mbr) = some (union_bbox lbox rbox) := by
  obtain ⟨x0, rest, rfl⟩ := List.exists_cons_of_ne_nil (l := items) (by
    intro hnil
    rw [hnil] at hlen
    simp [NODE_SIZE] at hlen)
  have hfinmap : ∀ b ∈ (x0 :: rest).map mbr, -(b.volume) < f64MAX := by
    intro b hb
    obtain ⟨x, hx, rfl⟩ := List.mem_map.mp hb
    exact hfin x hx
  obtain ⟨S, hps, hSmem⟩ :=
    pick_seeds_zip_self ((x0 :: rest).map mbr) (by simp) hfinmap
  have hred : util.quad_split mbr (x0 :: rest) =
      some (util.quad_split_go mbr (x0 :: rest) S [] S []) := by
    unfold util.quad_split
    rw [hps]
  rcases hgo : util.quad_split_go mbr (x0 :: rest) S [] S []
    with ⟨lbox, lefts, rbox, rights⟩
  refine ⟨lbox, lefts, rbox, rights, by rw [hred, hgo], ?_, ?_, ?_⟩
  · have hl := quad_split_go_lefts_ne mbr x0 rest S
    rw [hgo] at hl
    exact hl
  · have hinv := quad_split_go_rights_ne mbr S (x0 :: rest) S [] S [] (by
      right; right; right
      exact ⟨by rw [hlen]; norm_num [NODE_SIZE], rfl, rfl, rfl, rfl, hSmem⟩)
    rw [hgo] at hinv
    exact hinv
  · have hu := quad_split_go_union mbr (x0 :: rest) S [] S []
    rw [hgo] at hu
    dsimp only at hu
    rw [union_self, List.map_cons] at hu
    rw [List.map_cons] at hSmem ⊢
    rw [unionOfBoxes, hu]
    exact congrArg some (foldl_union_of_mem (mbr x0) (rest.map mbr) S hSmem).symm

/-- **C5 witness.**  The theorem applied to 65 copies of the unit cube
(boxes well within the finite range). -/
theorem C5_quad_split_nonempty_cover_witness :
    ∃ lbox lefts rbox rights,
      util.quad_split (T := BBox) id (List.replicate 65 ⟨⟨0, 0, 0⟩, ⟨1, 1, 1⟩⟩) =
        some (lbox, lefts, rbox, rights) ∧
      lefts ≠ [] ∧ rights ≠ [] ∧
      unionOfBoxes ((List.replicate 65 (⟨⟨0, 0, 0⟩, ⟨1, 1, 1⟩⟩ : BBox)).map id) =
        some (union_bbox lbox rbox) :=
  C5_quad_split_nonempty_cover id (List.replicate 65 ⟨⟨0, 0, 0⟩, ⟨1, 1, 1⟩⟩)
    (by norm_num [NODE_SIZE])
    (fun x hx => by
      rw [List.eq_of_mem_replicate hx]
      norm_num [BBox.volume, f64MAX])

end RT
